import Mathlib

/-!
Verification of the TMR (Triple Modular Redundancy) core of the repository.

The embedding below follows the Python sources:
  * `EnhancedTMRDemo` (advanced_tmr_demo.py): three replicas, majority-voted
    read, integrity check, single-fault correction, type-checked write.
  * `simulate_bit_flip` (advanced_tmr_demo.py / validate_tmr.py): the integer
    branch works on the base-2 digit string of `bin(value)[2:].zfill(32)`,
    MSB-indexed; the float branch XORs one bit of the 32-bit IEEE-754
    pattern, LSB-indexed.

Python values of kind int/float are modelled by `PyVal`.  Python `==` on
numbers is numeric equality across int/float (`5 == 5.0` is `True`), every
finite float value is a rational, `inf == inf`, and `nan` compares unequal
to everything, itself included.  `PyVal.beq` implements exactly this
relation; it is the comparison the TMR methods dispatch to.
-/

/-- The runtime kind of a protected scalar (`type(initial_value)`). -/
inductive PyKind where
  | int : PyKind
  | float : PyKind
deriving DecidableEq, Repr

/-- Model of a Python `float` for equality purposes: NaN, the two infinities,
or a finite value (every finite IEEE-754 double is a rational number). -/
inductive PyFloat where
  | nan : PyFloat
  | inf : PyFloat
  | ninf : PyFloat
  | num : ℚ → PyFloat
deriving DecidableEq, Repr

/-- Model of a Python scalar of kind int or float. -/
inductive PyVal where
  | vint : ℤ → PyVal
  | vfloat : PyFloat → PyVal
deriving DecidableEq, Repr

/-- Python `==` on the modelled scalars: numeric equality, also across the
int/float kinds; `nan` is unequal to everything including itself. -/
def PyVal.beq : PyVal → PyVal → Bool
  | .vint n, .vint m => n == m
  | .vfloat (.num p), .vfloat (.num q) => p == q
  | .vfloat .inf, .vfloat .inf => true
  | .vfloat .ninf, .vfloat .ninf => true
  | .vint n, .vfloat (.num q) => q.num == n && q.den == 1
  | .vfloat (.num q), .vint n => q.num == n && q.den == 1
  | _, _ => false

instance : BEq PyVal := ⟨PyVal.beq⟩

/-- `type(v)` restricted to the two kinds in play. -/
def PyVal.kind : PyVal → PyKind
  | .vint _ => .int
  | .vfloat _ => .float

/-- The demo TMR class: the kind fixed at construction plus three replicas. -/
structure EnhancedTMRDemo where
  value_type : PyKind
  value1 : PyVal
  value2 : PyVal
  value3 : PyVal
deriving DecidableEq, Repr

/-- `__init__`: record the value's kind and replicate it into all three
copies. -/
def EnhancedTMRDemo.init (v : PyVal) : EnhancedTMRDemo :=
  { value_type := v.kind, value1 := v, value2 := v, value3 := v }

/-- The `value` property getter: majority voting with the fixed pairwise
order (1,2), (1,3), (2,3) and replica 1 as the all-distinct default.  It is
a total function: no branch raises. -/
def EnhancedTMRDemo.value (t : EnhancedTMRDemo) : PyVal :=
  if t.value1 == t.value2 then t.value1
  else if t.value1 == t.value3 then t.value1
  else if t.value2 == t.value3 then t.value2
  else t.value1

/-- `check_integrity`: the chained comparison
`self.value1 == self.value2 == self.value3`. -/
def EnhancedTMRDemo.check_integrity (t : EnhancedTMRDemo) : Bool :=
  (t.value1 == t.value2) && (t.value2 == t.value3)

/-- `correct`: repair a single divergent replica from an agreeing pair.
The method mutates `self` and returns a bool; the model returns the bool
together with the post-state. -/
def EnhancedTMRDemo.correct (t : EnhancedTMRDemo) : Bool × EnhancedTMRDemo :=
  if t.value1 == t.value2 && !(t.value1 == t.value3) then
    (true, { t with value3 := t.value1 })
  else if t.value1 == t.value3 && !(t.value1 == t.value2) then
    (true, { t with value2 := t.value1 })
  else if t.value2 == t.value3 && !(t.value1 == t.value2) then
    (true, { t with value1 := t.value2 })
  else
    (false, t)

/-- The error raised by the `value` setter on a kind mismatch
(`TypeError` in the source, `TypeMismatch` in the specification). -/
inductive PyErr where
  | typeMismatch : PyErr
deriving DecidableEq, Repr

/-- The `value` property setter: raise unless the new value is an instance
of the kind fixed at construction, otherwise overwrite all three replicas.
The raise happens before any mutation, so on failure the state component is
the unchanged input state. -/
def EnhancedTMRDemo.writeValue (t : EnhancedTMRDemo) (v : PyVal) :
    Option PyErr × EnhancedTMRDemo :=
  if v.kind = t.value_type then
    (none, { t with value1 := v, value2 := v, value3 := v })
  else
    (some PyErr.typeMismatch, t)

/-- The fault-injection harness writes one chosen replica attribute
directly (`tmr.valueN = corrupted_value`), bypassing the setter. -/
def EnhancedTMRDemo.corruptReplica (t : EnhancedTMRDemo) (i : Fin 3)
    (w : PyVal) : EnhancedTMRDemo :=
  match i with
  | 0 => { t with value1 := w }
  | 1 => { t with value2 := w }
  | 2 => { t with value3 := w }

example :
    (EnhancedTMRDemo.correct
      ((EnhancedTMRDemo.init (.vint 42)).corruptReplica 2 (.vint 43))).1
      = true := by decide

example :
    ((EnhancedTMRDemo.init (.vfloat .nan)).corruptReplica 2
      (.vint 0)).correct = (false, (EnhancedTMRDemo.init (.vfloat .nan)).corruptReplica 2 (.vint 0)) := by decide

example : ((EnhancedTMRDemo.init (.vfloat .nan)).writeValue (.vfloat .nan)).1 = none := by decide

example :
    EnhancedTMRDemo.check_integrity
      ((EnhancedTMRDemo.init (.vfloat .nan)).writeValue (.vfloat .nan)).2 = false := by decide

example : PyVal.beq (.vint 5) (.vfloat (.num 5)) = true := by decide

example : PyVal.beq (.vfloat (.num 5)) (.vfloat (.num 5)) = true := by decide

/-- Python `==` on numbers is symmetric. -/
theorem PyVal.beq_symm (a b : PyVal) : (a == b) = (b == a) := by
  cases a with
  | vint n =>
    cases b with
    | vint m => simp [BEq.beq, PyVal.beq, eq_comm]
    | vfloat x => cases x <;> rfl
  | vfloat x =>
    cases b with
    | vint m => cases x <;> rfl
    | vfloat y => cases x <;> cases y <;> simp [BEq.beq, PyVal.beq, eq_comm]

/-- A value that compares equal to anything compares equal to itself
(the only non-self-equal value is float NaN, which equals nothing). -/
theorem PyVal.beq_self_left {a b : PyVal} (h : (a == b) = true) :
    (a == a) = true := by
  cases a with
  | vint n => simp [BEq.beq, PyVal.beq]
  | vfloat x =>
    cases x with
    | nan => cases b with
      | vint m => exact absurd h (by simp [BEq.beq, PyVal.beq])
      | vfloat y => exact absurd h (by cases y <;> simp [BEq.beq, PyVal.beq])
    | inf => rfl
    | ninf => rfl
    | num q => simp [BEq.beq, PyVal.beq]

/-- Claim C2 (confirmed): the majority-vote read follows the exact fixed
tie-break order — return replica 1 if it equals replica 2, else replica 1
if it equals replica 3, else replica 2 if it equals replica 3, else (all
three pairwise distinct) replica 1 as the default; the getter is total and
never raises. -/
theorem C2_read_tie_break_order (k : PyKind) (a b c : PyVal) :
    ((a == b) = true → (EnhancedTMRDemo.mk k a b c).value = a) ∧
    ((a == b) = false → (a == c) = true →
      (EnhancedTMRDemo.mk k a b c).value = a) ∧
    ((a == b) = false → (a == c) = false → (b == c) = true →
      (EnhancedTMRDemo.mk k a b c).value = b) ∧
    ((a == b) = false → (a == c) = false → (b == c) = false →
      (EnhancedTMRDemo.mk k a b c).value = a) := by
  refine ⟨?_, ?_, ?_, ?_⟩ <;> intros <;> simp_all [EnhancedTMRDemo.value]

/-- Witness for C2 at a concrete all-distinct triple. -/
theorem C2_witness :
    ((PyVal.vint 1 : PyVal) == .vint 2) = false ∧
    ((PyVal.vint 1 : PyVal) == .vint 3) = false ∧
    ((PyVal.vint 2 : PyVal) == .vint 3) = false ∧
    (EnhancedTMRDemo.mk .int (.vint 1) (.vint 2) (.vint 3)).value = .vint 1 :=
  ⟨by decide, by decide, by decide,
    (C2_read_tie_break_order .int (.vint 1) (.vint 2) (.vint 3)).2.2.2
      (by decide) (by decide) (by decide)⟩

/-- Claim C3 (confirmed): `correct()` acts only when exactly one replica
diverges from an agreeing pair; it fixes that replica from the pair and
returns `true`, and in every other reachable situation (all three equal
under `==`, or all three pairwise distinct under `==`) it mutates nothing
and returns `false`. -/
theorem C3_correct_single_divergence (k : PyKind) (a b c : PyVal) :
    ((a == b) = true → (a == c) = false →
      (EnhancedTMRDemo.mk k a b c).correct = (true, EnhancedTMRDemo.mk k a b a)) ∧
    ((a == b) = false → (a == c) = true →
      (EnhancedTMRDemo.mk k a b c).correct = (true, EnhancedTMRDemo.mk k a a c)) ∧
    ((a == b) = false → (a == c) = false → (b == c) = true →
      (EnhancedTMRDemo.mk k a b c).correct = (true, EnhancedTMRDemo.mk k b b c)) ∧
    ((((a == b) = true ∧ (a == c) = true) ∨
      ((a == b) = false ∧ (a == c) = false ∧ (b == c) = false)) →
      (EnhancedTMRDemo.mk k a b c).correct = (false, EnhancedTMRDemo.mk k a b c)) := by
  refine ⟨?_, ?_, ?_, ?_⟩
  · intro h1 h2; simp [EnhancedTMRDemo.correct, h1, h2]
  · intro h1 h2; simp [EnhancedTMRDemo.correct, h1, h2]
  · intro h1 h2 h3; simp [EnhancedTMRDemo.correct, h1, h2, h3]
  · rintro (⟨h1, h2⟩ | ⟨h1, h2, h3⟩) <;>
      simp [EnhancedTMRDemo.correct, h1, h2, *]

/-- Witness for C3: replica 3 diverging gets repaired from the (1,2) pair. -/
theorem C3_witness :
    ((PyVal.vint 7 : PyVal) == .vint 7) = true ∧
    ((PyVal.vint 7 : PyVal) == .vint 9) = false ∧
    (EnhancedTMRDemo.mk .int (.vint 7) (.vint 7) (.vint 9)).correct
      = (true, EnhancedTMRDemo.mk .int (.vint 7) (.vint 7) (.vint 7)) :=
  ⟨by decide, by decide,
    (C3_correct_single_divergence .int (.vint 7) (.vint 7) (.vint 9)).1
      (by decide) (by decide)⟩

/-- Counterexample to claim C1 as stated: write `nan` (a float value, so all
three replicas hold it), then set replica 3 to `0`, which satisfies
`0 != nan`; `correct()` returns `false`, not `true`, because `nan == nan`
is `False` so no replica pair agrees. -/
theorem C1_counterexample :
    (PyVal.beq (.vint 0) (.vfloat .nan)) = false ∧
    (((EnhancedTMRDemo.init (.vfloat .nan)).corruptReplica 2
        (.vint 0)).correct).1 = false := by decide

/-- Claim C1 (amended): for every value `v` that compares equal to itself
under Python `==` (this excludes only float NaN), after writing `v` and
then setting exactly one replica to any `w` with `w != v`, `correct()`
returns `true`, and afterwards `check_integrity()` is `true` and the voted
read returns `v`. -/
theorem C1_single_fault_correction (v w : PyVal) (i : Fin 3)
    (hself : (v == v) = true) (hne : (w == v) = false) :
    ((((EnhancedTMRDemo.init v).corruptReplica i w).correct).1 = true) ∧
    ((((EnhancedTMRDemo.init v).corruptReplica i w).correct).2.check_integrity
      = true) ∧
    ((((EnhancedTMRDemo.init v).corruptReplica i w).correct).2.value = v) := by
  have hne' : (v == w) = false := by rw [PyVal.beq_symm]; exact hne
  match i with
  | 0 =>
    simp [EnhancedTMRDemo.init, EnhancedTMRDemo.corruptReplica,
      EnhancedTMRDemo.correct, EnhancedTMRDemo.check_integrity,
      EnhancedTMRDemo.value, hself, hne, hne']
  | 1 =>
    simp [EnhancedTMRDemo.init, EnhancedTMRDemo.corruptReplica,
      EnhancedTMRDemo.correct, EnhancedTMRDemo.check_integrity,
      EnhancedTMRDemo.value, hself, hne, hne']
  | 2 =>
    simp [EnhancedTMRDemo.init, EnhancedTMRDemo.corruptReplica,
      EnhancedTMRDemo.correct, EnhancedTMRDemo.check_integrity,
      EnhancedTMRDemo.value, hself, hne, hne']

/-- Witness for the amended C1 at `v = 42`, corrupting replica 3 to `43`. -/
theorem C1_witness :
    ((PyVal.vint 42 : PyVal) == .vint 42) = true ∧
    ((PyVal.vint 43 : PyVal) == .vint 42) = false ∧
    ((((EnhancedTMRDemo.init (.vint 42)).corruptReplica 2
        (.vint 43)).correct).1 = true) ∧
    ((((EnhancedTMRDemo.init (.vint 42)).corruptReplica 2
        (.vint 43)).correct).2.check_integrity = true) ∧
    ((((EnhancedTMRDemo.init (.vint 42)).corruptReplica 2
        (.vint 43)).correct).2.value = .vint 42) := by
  refine ⟨by decide, by decide, ?_⟩
  have h := C1_single_fault_correction (.vint 42) (.vint 43) 2
    (by decide) (by decide)
  exact ⟨h.1, h.2.1, h.2.2⟩

/-- Counterexample to claim C4 as stated: the write of float `nan` succeeds
(it is of the instance's kind), yet `check_integrity()` afterwards is
`false`, because `nan == nan` is `False`. -/
theorem C4_counterexample :
    (((EnhancedTMRDemo.init (.vfloat .nan)).writeValue (.vfloat .nan)).1
      = none) ∧
    (((EnhancedTMRDemo.init (.vfloat .nan)).writeValue
        (.vfloat .nan)).2.check_integrity = false) := by decide

/-- Claim C4 (amended): for every value `v` of the instance's kind that
compares equal to itself under Python `==` (this excludes only float NaN),
the write succeeds and immediately afterwards `check_integrity()` is
`true` and the voted read returns `v`. -/
theorem C4_idempotent_write (t : EnhancedTMRDemo) (v : PyVal)
    (hself : (v == v) = true) (hkind : v.kind = t.value_type) :
    ((t.writeValue v).1 = none) ∧
    ((t.writeValue v).2.check_integrity = true) ∧
    ((t.writeValue v).2.value = v) := by
  simp [EnhancedTMRDemo.writeValue, hkind, EnhancedTMRDemo.check_integrity,
    EnhancedTMRDemo.value, hself]

/-- Witness for the amended C4 at an int instance and `v = 7`. -/
theorem C4_witness :
    ((PyVal.vint 7 : PyVal) == .vint 7) = true ∧
    (PyVal.vint 7).kind = (EnhancedTMRDemo.init (.vint 0)).value_type ∧
    (((EnhancedTMRDemo.init (.vint 0)).writeValue (.vint 7)).1 = none) ∧
    (((EnhancedTMRDemo.init (.vint 0)).writeValue
        (.vint 7)).2.check_integrity = true) ∧
    (((EnhancedTMRDemo.init (.vint 0)).writeValue (.vint 7)).2.value
      = .vint 7) := by
  refine ⟨by decide, by decide, ?_⟩
  have h := C4_idempotent_write (EnhancedTMRDemo.init (.vint 0)) (.vint 7)
    (by decide) (by decide)
  exact ⟨h.1, h.2.1, h.2.2⟩

/-- Counterexample to claim C5 as stated: all three replicas hold float
`nan`; replacing replica 1 by `5` (which satisfies `5 != nan`) makes the
voted read return `5`, not the stored value `nan`, because the untouched
pair `nan, nan` does not win the vote (`nan == nan` is `False`). -/
theorem C5_counterexample :
    (PyVal.beq (.vint 5) (.vfloat .nan)) = false ∧
    (((EnhancedTMRDemo.init (.vfloat .nan)).corruptReplica 0
        (.vint 5)).value = .vint 5) ∧
    PyVal.vint 5 ≠ PyVal.vfloat .nan := by decide

/-- Claim C5 (amended): for every value `v` that compares equal to itself
under Python `==` (this excludes only float NaN) held in all three
replicas, after any single replica is replaced by any `w` with `w != v`,
the voted read still returns `v` while `check_integrity()` is `false`. -/
theorem C5_majority_masking (v w : PyVal) (i : Fin 3)
    (hself : (v == v) = true) (hne : (w == v) = false) :
    (((EnhancedTMRDemo.init v).corruptReplica i w).value = v) ∧
    (((EnhancedTMRDemo.init v).corruptReplica i w).check_integrity
      = false) := by
  have hne' : (v == w) = false := by rw [PyVal.beq_symm]; exact hne
  match i with
  | 0 =>
    simp [EnhancedTMRDemo.init, EnhancedTMRDemo.corruptReplica,
      EnhancedTMRDemo.check_integrity, EnhancedTMRDemo.value,
      hself, hne, hne']
  | 1 =>
    simp [EnhancedTMRDemo.init, EnhancedTMRDemo.corruptReplica,
      EnhancedTMRDemo.check_integrity, EnhancedTMRDemo.value,
      hself, hne, hne']
  | 2 =>
    simp [EnhancedTMRDemo.init, EnhancedTMRDemo.corruptReplica,
      EnhancedTMRDemo.check_integrity, EnhancedTMRDemo.value,
      hself, hne, hne']

/-- Witness for the amended C5 at `v = 10`, corrupting replica 2 to `99`. -/
theorem C5_witness :
    ((PyVal.vint 10 : PyVal) == .vint 10) = true ∧
    ((PyVal.vint 99 : PyVal) == .vint 10) = false ∧
    (((EnhancedTMRDemo.init (.vint 10)).corruptReplica 1
        (.vint 99)).value = .vint 10) ∧
    (((EnhancedTMRDemo.init (.vint 10)).corruptReplica 1
        (.vint 99)).check_integrity = false) := by
  refine ⟨by decide, by decide, ?_⟩
  exact C5_majority_masking (.vint 10) (.vint 99) 1 (by decide) (by decide)

/-- Claim C8 (confirmed): a write whose value has a different kind than the
kind fixed at construction fails with the type-mismatch error and leaves
all three replicas, and hence the voted read, exactly as they were; a
write of the same kind never fails. -/
theorem C8_write_type_mismatch_atomicity (t : EnhancedTMRDemo) (v : PyVal) :
    (v.kind ≠ t.value_type →
      t.writeValue v = (some PyErr.typeMismatch, t) ∧
      (t.writeValue v).2.value = t.value) ∧
    (v.kind = t.value_type → (t.writeValue v).1 = none) := by
  constructor
  · intro h
    simp [EnhancedTMRDemo.writeValue, h]
  · intro h
    simp [EnhancedTMRDemo.writeValue, h]

/-- Witness for C8: writing a float into an int-kind instance fails and
leaves the state untouched; writing an int succeeds. -/
theorem C8_witness :
    (PyVal.vfloat (.num 5)).kind
      ≠ (EnhancedTMRDemo.init (.vint 1)).value_type ∧
    ((EnhancedTMRDemo.init (.vint 1)).writeValue (.vfloat (.num 5))
      = (some PyErr.typeMismatch, EnhancedTMRDemo.init (.vint 1))) ∧
    (PyVal.vint 2).kind = (EnhancedTMRDemo.init (.vint 1)).value_type ∧
    ((EnhancedTMRDemo.init (.vint 1)).writeValue (.vint 2)).1 = none := by
  refine ⟨by decide, ?_, by decide, ?_⟩
  · exact ((C8_write_type_mismatch_atomicity (EnhancedTMRDemo.init (.vint 1))
      (.vfloat (.num 5))).1 (by decide)).1
  · exact (C8_write_type_mismatch_atomicity (EnhancedTMRDemo.init (.vint 1))
      (.vint 2)).2 (by decide)

/-- Claim C9 (confirmed): whenever `correct()` returns `true`, the state it
leaves behind passes `check_integrity()`, and an immediately following
second `correct()` on that state returns `false` and mutates nothing. -/
theorem C9_correction_idempotent (t : EnhancedTMRDemo)
    (h : (t.correct).1 = true) :
    ((t.correct).2.check_integrity = true) ∧
    ((t.correct).2.correct = (false, (t.correct).2)) := by
  obtain ⟨k, a, b, c⟩ := t
  cases hab : (a == b) <;> cases hac : (a == c) <;> cases hbc : (b == c) <;>
    simp only [EnhancedTMRDemo.correct, hab, hac, hbc] at h ⊢ <;>
    simp at h ⊢
  -- remaining goals: the three branches that can return `true`
  case false.true.false =>
    -- pair (1,3) agrees, replica 2 repaired: state (a, a, c)
    have haa : (a == a) = true := PyVal.beq_self_left hac
    simp [EnhancedTMRDemo.check_integrity, EnhancedTMRDemo.correct,
      haa, hab, hac]
  case false.true.true =>
    have haa : (a == a) = true := PyVal.beq_self_left hac
    simp [EnhancedTMRDemo.check_integrity, EnhancedTMRDemo.correct,
      haa, hab, hac]
  case false.false.true =>
    -- pair (2,3) agrees, replica 1 repaired: state (b, b, c)
    have hbb : (b == b) = true := PyVal.beq_self_left hbc
    simp [EnhancedTMRDemo.check_integrity, EnhancedTMRDemo.correct,
      hbb, hbc]
  case true.false.false =>
    -- pair (1,2) agrees, replica 3 repaired: state (a, b, a)
    have haa : (a == a) = true := PyVal.beq_self_left hab
    have hba : (b == a) = true := by rw [PyVal.beq_symm]; exact hab
    simp [EnhancedTMRDemo.check_integrity, EnhancedTMRDemo.correct,
      haa, hab, hba]
  case true.false.true =>
    have haa : (a == a) = true := PyVal.beq_self_left hab
    have hba : (b == a) = true := by rw [PyVal.beq_symm]; exact hab
    simp [EnhancedTMRDemo.check_integrity, EnhancedTMRDemo.correct,
      haa, hab, hba]

/-- Witness for C9 at a concrete corrected state. -/
theorem C9_witness :
    (((EnhancedTMRDemo.mk .int (.vint 4) (.vint 4) (.vint 6)).correct).1
      = true) ∧
    (((EnhancedTMRDemo.mk .int (.vint 4) (.vint 4)
        (.vint 6)).correct).2.check_integrity = true) ∧
    (((EnhancedTMRDemo.mk .int (.vint 4) (.vint 4)
        (.vint 6)).correct).2.correct
      = (false, ((EnhancedTMRDemo.mk .int (.vint 4) (.vint 4)
          (.vint 6)).correct).2)) := by
  refine ⟨by decide, ?_⟩
  exact C9_correction_idempotent
    (EnhancedTMRDemo.mk .int (.vint 4) (.vint 4) (.vint 6)) (by decide)

/-!
The float branch of `simulate_bit_flip`: the value is packed to its 32-bit
IEEE-754 big-endian pattern (`struct.pack('>f', value)`), reinterpreted as
an unsigned 32-bit integer, XORed with `1 << bit_position`, and unpacked
back to a float.  A 32-bit float is modelled by its bit pattern, a natural
number below `2 ^ 32`.  Pack and unpack are NOT exact inverses on every
pattern: `struct.unpack('>f', ...)` converts float32 to the C `double`
backing a Python float, and that IEEE format conversion quietens a
signaling NaN — a pattern with all-ones exponent, nonzero mantissa and
clear quiet bit (bit 22) comes out as the same pattern with bit 22 set,
the payload preserved (CPython on x86/ARM); every other pattern round
trips exactly, and a Python float value is itself never a signaling NaN.
There is no range validation in the source: for a negative position
`1 << bit_position` raises `ValueError`, and for a position of 32 or more
the XOR result is at least `2 ^ 32` so `struct.pack('>I', i)` raises
`struct.error`. -/

/-- The exception raised by the float branch: `ValueError` from a negative
shift count, or `struct.error` from packing an out-of-range integer.  The
specification groups both as `InvalidBitPosition`. -/
inductive FloatFlipError where
  | valueError : FloatFlipError
  | structError : FloatFlipError
deriving DecidableEq, Repr

/-- A signaling-NaN pattern: exponent bits 23..30 all ones, nonzero
mantissa, quiet bit (bit 22) clear. -/
def isSNaN (i : ℕ) : Bool :=
  (i / 2 ^ 23) % 2 ^ 8 == 255 && i % 2 ^ 23 != 0 && (i / 2 ^ 22) % 2 == 0

/-- The effect of the float32 → float64 → float32 passage on a bit
pattern: a signaling NaN is quietened (bit 22 set, payload kept); every
other pattern is unchanged. -/
def quietNaN (i : ℕ) : ℕ := if isSNaN i then i ||| 2 ^ 22 else i

/-- The float branch of `simulate_bit_flip` on the 32-bit pattern: XOR the
addressed bit, pack the integer (failing above `2 ^ 32`), and unpack the
resulting pattern to the returned Python float, which quietens a
signaling-NaN pattern. -/
def simulate_bit_flip_float (bits : ℕ) (p : ℤ) : Except FloatFlipError ℕ :=
  if p < 0 then Except.error FloatFlipError.valueError
  else if bits ^^^ (1 <<< p.toNat) < 2 ^ 32 then
    Except.ok (quietNaN (bits ^^^ (1 <<< p.toNat)))
  else Except.error FloatFlipError.structError

example : simulate_bit_flip_float 5 3 = Except.ok 13 := rfl

example : (simulate_bit_flip_float 5 32).isOk = false := rfl

example : simulate_bit_flip_float 2139095040 0 = Except.ok 2143289345 := rfl

/-- Counterexample to claim C7 as stated: flipping bit 0 of `inf` (pattern
`0x7F800000`) twice does not return `inf` bit-exactly.  The first flip
produces the signaling-NaN pattern `0x7F800001`, which the struct
float32/float64 conversions quieten to `0x7FC00001`; the second flip then
yields the quiet NaN `0x7FC00000`, not `inf`. -/
theorem C7_counterexample :
    (2139095040 : ℕ) < 2 ^ 32 ∧
    (simulate_bit_flip_float 2139095040 0).bind
      (fun b => simulate_bit_flip_float b 0) = Except.ok 2143289344 ∧
    (2143289344 : ℕ) ≠ 2139095040 := by
  refine ⟨by norm_num, rfl, by norm_num⟩

/-- Claim C7 (amended): for every 32-bit float (given by its pattern —
never itself a signaling NaN, since Python floats are quiet) and every bit
position in [0,31] such that the single flip does not produce a
signaling-NaN pattern, flipping the same bit twice returns the original
bit-exactly; when the flip does produce a signaling NaN, the struct
conversions quieten it, so the round trip returns the quietened pattern
instead.  For every position outside [0,31] the operation fails (the
`InvalidBitPosition` failure of the specification, realised in the source
as `ValueError` for negative positions and `struct.error` for positions of
32 or more). -/
theorem C7_float_bit_flip_round_trip (bits : ℕ) (p : ℤ)
    (hb : bits < 2 ^ 32) (hq : isSNaN bits = false) :
    ((0 ≤ p ∧ p ≤ 31) → isSNaN (bits ^^^ (1 <<< p.toNat)) = false →
      (simulate_bit_flip_float bits p).bind
        (fun b => simulate_bit_flip_float b p) = Except.ok bits) ∧
    ((p < 0 ∨ 31 < p) →
      ∃ e, simulate_bit_flip_float bits p = Except.error e) := by
  constructor
  · rintro ⟨h0, h31⟩ hsn
    have hp : ¬ p < 0 := not_lt.mpr h0
    have hn : p.toNat < 32 := by omega
    have hm : (1 <<< p.toNat) < 2 ^ 32 := by
      rw [Nat.one_shiftLeft]
      exact Nat.pow_lt_pow_right (by norm_num) hn
    have hx : bits ^^^ (1 <<< p.toNat) < 2 ^ 32 := Nat.xor_lt_two_pow hb hm
    have hxx : (bits ^^^ (1 <<< p.toNat)) ^^^ (1 <<< p.toNat) = bits :=
      Nat.xor_cancel_right _ _
    have hq1 : quietNaN (bits ^^^ (1 <<< p.toNat)) = bits ^^^ (1 <<< p.toNat) := by
      simp [quietNaN, hsn]
    have hq2 : quietNaN bits = bits := by
      simp [quietNaN, hq]
    have e1 : simulate_bit_flip_float bits p
        = Except.ok (bits ^^^ (1 <<< p.toNat)) := by
      unfold simulate_bit_flip_float
      rw [if_neg hp, if_pos hx, hq1]
    have e2 : simulate_bit_flip_float (bits ^^^ (1 <<< p.toNat)) p
        = Except.ok bits := by
      unfold simulate_bit_flip_float
      rw [if_neg hp, hxx, if_pos hb, hq2]
    rw [e1]
    exact e2
  · rintro (hneg | hbig)
    · refine ⟨FloatFlipError.valueError, ?_⟩
      unfold simulate_bit_flip_float
      rw [if_pos hneg]
    · have hp : ¬ p < 0 := by omega
      have h32 : 32 ≤ p.toNat := by omega
      have hbit : Nat.testBit bits p.toNat = false :=
        Nat.testBit_lt_two_pow
          (lt_of_lt_of_le hb (Nat.pow_le_pow_right (by norm_num) h32))
      have hhigh : ¬ (bits ^^^ (1 <<< p.toNat)) < 2 ^ 32 := by
        intro hlt
        have hfalse : Nat.testBit (bits ^^^ (1 <<< p.toNat)) p.toNat = false :=
          Nat.testBit_lt_two_pow
            (lt_of_lt_of_le hlt (Nat.pow_le_pow_right (by norm_num) h32))
        rw [Nat.testBit_xor, hbit, Nat.one_shiftLeft,
          Nat.testBit_two_pow_self] at hfalse
        simp at hfalse
      refine ⟨FloatFlipError.structError, ?_⟩
      unfold simulate_bit_flip_float
      rw [if_neg hp, if_neg hhigh]

/-- Witness for the amended C7: round trip at the non-NaN pattern 5,
position 3, and failure at position 32. -/
theorem C7_witness :
    ((0 : ℤ) ≤ 3 ∧ (3 : ℤ) ≤ 31) ∧
    isSNaN 5 = false ∧
    isSNaN (5 ^^^ (1 <<< (3 : ℤ).toNat)) = false ∧
    (simulate_bit_flip_float 5 3).bind
      (fun b => simulate_bit_flip_float b 3) = Except.ok 5 ∧
    (∃ e, simulate_bit_flip_float 5 32 = Except.error e) := by
  refine ⟨by decide, by decide, by decide, ?_, ?_⟩
  · exact (C7_float_bit_flip_round_trip 5 3 (by decide) (by decide)).1
      (by decide) (by decide)
  · exact (C7_float_bit_flip_round_trip 5 32 (by decide) (by decide)).2
      (by decide)

/-!
The integer branch of `simulate_bit_flip`:

    binary = list(bin(value)[2:].zfill(32))
    if bit_position < len(binary):
        binary[bit_position] = '1' if binary[bit_position] == '0' else '0'
        return int(''.join(binary), 2)
    return value

For `value >= 0`, `bin(value)[2:]` is the MSB-first base-2 digit string
(`'0'` for zero).  For `value < 0`, `bin(value)` is `'-0b' + digits`, so
the slice `[2:]` strips `'-0'` and leaves `'b' + digits` of the absolute
value; `zfill` then left-pads with `'0'` (the string has no sign
character, so no sign handling applies).  Flipping replaces the addressed
character by `'1'` if it is `'0'` and by `'0'` otherwise, and
`int(s, 2)` raises `ValueError` (modelled as `none`) when a non-digit
character such as `'b'` remains. -/

/-- MSB-first binary digits of a natural number, with explicit fuel so that
the definition is structurally recursive (the fuel `v` itself is always
enough).  `toBitsAux fuel v = digits of v` whenever `v ≤ fuel`. -/
def toBitsAux : ℕ → ℕ → List Bool
  | 0, _ => []
  | fuel + 1, v =>
    if v = 0 then [] else toBitsAux fuel (v / 2) ++ [decide (v % 2 = 1)]

/-- MSB-first binary digits of `v`; empty for `v = 0`. -/
def toBits (v : ℕ) : List Bool := toBitsAux v v

/-- The digit string `bin(n)[2:]` of a natural number: `'0'` for zero,
otherwise the MSB-first digits with no leading zero. -/
def pyBinDigits (n : ℕ) : List Bool := if n = 0 then [false] else toBits n

/-- Render one binary digit as its character. -/
def bitChar (b : Bool) : Char := if b then '1' else '0'

/-- The string `bin(v)[2:]`: the digit characters for `v ≥ 0`; for `v < 0`
the slice strips `'-0'` from `'-0b...'`, leaving `'b'` followed by the
digits of `-v`. -/
def pyBinString (v : ℤ) : List Char :=
  if v < 0 then 'b' :: (pyBinDigits (-v).toNat).map bitChar
  else (pyBinDigits v.toNat).map bitChar

/-- `bin(v)[2:].zfill(32)`: left-pad with `'0'` to a minimum width of 32. -/
def paddedBin (v : ℤ) : List Char :=
  List.replicate (32 - (pyBinString v).length) '0' ++ pyBinString v

/-- `'1' if c == '0' else '0'`. -/
def flipChar (c : Char) : Char := if c = '0' then '1' else '0'

/-- The value of one character as a base-2 digit, `none` when `int(s, 2)`
would reject it. -/
def charBit (c : Char) : Option ℕ :=
  if c = '0' then some 0 else if c = '1' then some 1 else none

/-- The digit run of `int(s, 2)`: the value of a string of binary digit
characters, `none` when a character is not a binary digit. -/
def parseBinVal (l : List Char) : Option ℕ :=
  (l.mapM charBit).map (fun ds => ds.foldl (fun acc d => 2 * acc + d) 0)

/-- Whether the string starts with the two characters `'0'`, `'b'` — the
optional base-2 prefix that `int(s, 2)` accepts and strips. -/
def leading0b (l : List Char) : Bool :=
  (l.getD 0 '0' == '0') && (l.getD 1 '0' == 'b')

/-- `int(''.join(l), 2)` on the strings this pipeline produces (characters
drawn from `'0'`, `'1'`, `'b'`): an optional leading `'0b'` prefix is
accepted and stripped, after which a non-empty run of binary digits gives
the value; anything else — a `'b'` anywhere past a possible prefix, or an
empty digit run — raises `ValueError`, modelled as `none`.  (Signs,
whitespace, underscores and the `'0B'` spelling never occur here.) -/
def parseBin2 (l : List Char) : Option ℕ :=
  if leading0b l then
    if l.length = 2 then none else parseBinVal (l.drop 2)
  else if l = [] then none
  else parseBinVal l

/-- The integer branch of `simulate_bit_flip` (advanced_tmr_demo.py):
flip the addressed character of the zero-padded digit string when the
position is in range, else return the value unchanged; `none` models the
`ValueError` raised by `int(s, 2)` on the `'b'` of a negative value. -/
def simulate_bit_flip_int (v : ℤ) (p : ℕ) : Option ℤ :=
  if p < (paddedBin v).length then
    (parseBin2
        ((paddedBin v).set p (flipChar ((paddedBin v).getD p '0')))).map
      (fun n => (n : ℤ))
  else some v

example : simulate_bit_flip_int 42 31 = some 43 := by decide

example : simulate_bit_flip_int 42 40 = some 42 := by decide

example : simulate_bit_flip_int 0 0 = some (2 ^ 31) := by decide

example : simulate_bit_flip_int (-5) 28 = some 5 := by decide

example : simulate_bit_flip_int (-5) 0 = none := by decide

example : simulate_bit_flip_int (-5) 31 = none := by decide

example : simulate_bit_flip_int (-(2 ^ 29)) 31 = some 536870913 := by decide

example : simulate_bit_flip_int (-(2 ^ 29)) 0 = none := by decide

/-- The fuel argument of `toBitsAux` is irrelevant once it dominates the
value. -/
theorem toBitsAux_irrel (v : ℕ) : ∀ f₁ f₂ : ℕ, v ≤ f₁ → v ≤ f₂ →
    toBitsAux f₁ v = toBitsAux f₂ v := by
  induction v using Nat.strong_induction_on with
  | _ v ih =>
    intro f₁ f₂ h₁ h₂
    match v, f₁, f₂ with
    | 0, 0, 0 => rfl
    | 0, 0, g₂ + 1 => simp [toBitsAux]
    | 0, g₁ + 1, 0 => simp [toBitsAux]
    | 0, g₁ + 1, g₂ + 1 => simp [toBitsAux]
    | w + 1, g₁ + 1, g₂ + 1 =>
      simp only [toBitsAux, Nat.succ_ne_zero, if_false]
      have hlt : (w + 1) / 2 < w + 1 := Nat.div_lt_self (Nat.succ_pos w) one_lt_two
      rw [ih ((w + 1) / 2) hlt g₁ g₂ (by omega) (by omega)]

/-- The recursion equation of `toBits`. -/
theorem toBits_eq (v : ℕ) :
    toBits v = if v = 0 then [] else toBits (v / 2) ++ [decide (v % 2 = 1)] := by
  match v with
  | 0 => rfl
  | w + 1 =>
    show toBitsAux (w + 1) (w + 1) = _
    simp only [toBitsAux, Nat.succ_ne_zero, if_false]
    rw [toBitsAux_irrel ((w + 1) / 2) w ((w + 1) / 2) (by omega) (le_refl _)]
    rfl

/-- Reassemble a value from MSB-first binary digits (the fold performed by
`int(s, 2)` on the digit values). -/
def fromBits (l : List Bool) : ℕ :=
  l.foldl (fun acc b => 2 * acc + (if b then 1 else 0)) 0

theorem fromBits_foldl_acc (l : List Bool) (acc : ℕ) :
    l.foldl (fun acc b => 2 * acc + (if b then 1 else 0)) acc
      = acc * 2 ^ l.length + fromBits l := by
  induction l generalizing acc with
  | nil => simp [fromBits]
  | cons b t ih =>
    show List.foldl _ (2 * acc + (if b then 1 else 0)) t
      = acc * 2 ^ (b :: t).length + fromBits (b :: t)
    rw [ih (2 * acc + (if b then 1 else 0))]
    have h2 : fromBits (b :: t)
        = (2 * 0 + (if b then 1 else 0)) * 2 ^ t.length + fromBits t := by
      show List.foldl _ (2 * 0 + (if b then 1 else 0)) t = _
      rw [ih (2 * 0 + (if b then 1 else 0))]
    rw [h2, List.length_cons]
    ring

theorem fromBits_cons (b : Bool) (t : List Bool) :
    fromBits (b :: t) = (if b then 1 else 0) * 2 ^ t.length + fromBits t := by
  show List.foldl _ (2 * 0 + (if b then 1 else 0)) t = _
  rw [fromBits_foldl_acc]
  ring_nf

theorem fromBits_append (l₁ l₂ : List Bool) :
    fromBits (l₁ ++ l₂) = fromBits l₁ * 2 ^ l₂.length + fromBits l₂ := by
  unfold fromBits
  rw [List.foldl_append, fromBits_foldl_acc]
  rfl

theorem fromBits_replicate_false (n : ℕ) :
    fromBits (List.replicate n false) = 0 := by
  induction n with
  | zero => rfl
  | succ k ih => rw [List.replicate_succ, fromBits_cons, ih]; simp

theorem fromBits_lt (l : List Bool) : fromBits l < 2 ^ l.length := by
  induction l with
  | nil => simp [fromBits]
  | cons b t ih =>
    rw [fromBits_cons]
    have hb : (if b then 1 else 0) ≤ 1 := by cases b <;> simp
    calc (if b then 1 else 0) * 2 ^ t.length + fromBits t
        ≤ 1 * 2 ^ t.length + fromBits t := by
          exact Nat.add_le_add_right
            (Nat.mul_le_mul_right _ hb) _
      _ < 2 ^ t.length + 2 ^ t.length := by omega
      _ = 2 ^ (b :: t).length := by
          simp [List.length_cons, pow_succ]; ring

theorem fromBits_toBits (v : ℕ) : fromBits (toBits v) = v := by
  induction v using Nat.strong_induction_on with
  | _ v ih =>
    rw [toBits_eq]
    by_cases h : v = 0
    · simp [h, fromBits]
    · have hone : fromBits [decide (v % 2 = 1)] = v % 2 := by
        rcases Nat.mod_two_eq_zero_or_one v with h2 | h2 <;> simp [fromBits, h2]
      rw [if_neg h, fromBits_append,
        ih (v / 2) (Nat.div_lt_self (Nat.pos_of_ne_zero h) one_lt_two), hone]
      simp only [List.length_singleton, pow_one]
      omega

theorem fromBits_pyBinDigits (n : ℕ) : fromBits (pyBinDigits n) = n := by
  unfold pyBinDigits
  by_cases h : n = 0
  · simp [h, fromBits]
  · rw [if_neg h, fromBits_toBits]

theorem toBits_length_le {n k : ℕ} (h : n < 2 ^ k) :
    (toBits n).length ≤ k := by
  induction k generalizing n with
  | zero =>
    interval_cases n
    simp [toBits, toBitsAux]
  | succ k ih =>
    rw [toBits_eq]
    by_cases h0 : n = 0
    · simp [h0]
    · rw [if_neg h0]
      have hdiv : n / 2 < 2 ^ k := by
        have h2 : (2 : ℕ) ^ (k + 1) = 2 * 2 ^ k := by ring
        omega
      simp only [List.length_append, List.length_singleton]
      have := ih hdiv
      omega

theorem pyBinDigits_length_le {n : ℕ} (h : n < 2 ^ 32) :
    (pyBinDigits n).length ≤ 32 := by
  unfold pyBinDigits
  by_cases h0 : n = 0
  · simp [h0]
  · rw [if_neg h0]
    exact toBits_length_le h

theorem toBits_length_ge {n k : ℕ} (h : 2 ^ k ≤ n) :
    k < (toBits n).length := by
  by_contra hcon
  push_neg at hcon
  have h1 : n < 2 ^ (toBits n).length := by
    conv_lhs => rw [← fromBits_toBits n]
    exact fromBits_lt _
  have h2 : (2 : ℕ) ^ (toBits n).length ≤ 2 ^ k :=
    Nat.pow_le_pow_right (by norm_num) hcon
  omega

theorem toBits_head {v : ℕ} (h : 1 ≤ v) : ∃ t, toBits v = true :: t := by
  induction v using Nat.strong_induction_on with
  | _ v ih =>
    rw [toBits_eq, if_neg (by omega)]
    by_cases h2 : v / 2 = 0
    · have hv : v = 1 := by omega
      subst hv
      exact ⟨[], rfl⟩
    · obtain ⟨t, ht⟩ := ih (v / 2) (Nat.div_lt_self (by omega) one_lt_two)
        (by omega)
      exact ⟨t ++ [decide (v % 2 = 1)], by rw [ht]; rfl⟩

/-- Left-pad a digit list with `false` to width `n` (the Bool-level
`zfill`). -/
def padTo (n : ℕ) (l : List Bool) : List Bool :=
  List.replicate (n - l.length) false ++ l

theorem padTo_length {n : ℕ} {l : List Bool} (h : l.length ≤ n) :
    (padTo n l).length = n := by
  unfold padTo
  simp only [List.length_append, List.length_replicate]
  omega

theorem fromBits_padTo (n : ℕ) (l : List Bool) :
    fromBits (padTo n l) = fromBits l := by
  unfold padTo
  rw [fromBits_append, fromBits_replicate_false]
  simp

theorem padTo_eq_self {n : ℕ} {l : List Bool} (h : l.length = n) :
    padTo n l = l := by
  unfold padTo
  rw [h]
  simp

/-- Digits of `2 ^ n + r` for `r < 2 ^ n`, `1 ≤ n`: a leading one followed
by the `n`-padded digit string of `r`. -/
theorem toBits_two_pow_add {n r : ℕ} (hr : r < 2 ^ n) (hn : 1 ≤ n) :
    toBits (2 ^ n + r) = true :: padTo n (pyBinDigits r) := by
  induction n generalizing r with
  | zero => omega
  | succ m ihm =>
    by_cases hm0 : m = 0
    · subst hm0
      interval_cases r <;> rfl
    · have hm1 : 1 ≤ m := by omega
      have hpos : 2 ^ (m + 1) + r ≠ 0 := by positivity
      have hpow : (2 : ℕ) ^ (m + 1) = 2 * 2 ^ m := by ring
      have hdiv : (2 ^ (m + 1) + r) / 2 = 2 ^ m + r / 2 := by omega
      have hmod : (2 ^ (m + 1) + r) % 2 = r % 2 := by omega
      have hstep : padTo (m + 1) (pyBinDigits r)
          = padTo m (pyBinDigits (r / 2)) ++ [decide (r % 2 = 1)] := by
        by_cases hr0 : r = 0
        · subst hr0
          show padTo (m + 1) [false] = padTo m [false] ++ [decide False]
          unfold padTo
          simp only [List.length_singleton, decide_False]
          rw [show m + 1 - 1 = (m - 1) + 1 by omega,
            List.replicate_succ' (m - 1) false]
        · by_cases hr1 : r = 1
          · subst hr1
            show padTo (m + 1) (toBits 1) = padTo m [false] ++ [decide True]
            unfold padTo
            simp only [decide_True]
            show List.replicate (m + 1 - 1) false ++ [true]
              = (List.replicate (m - 1) false ++ [false]) ++ [true]
            rw [show m + 1 - 1 = (m - 1) + 1 by omega,
              List.replicate_succ' (m - 1) false]
          · have hrdiv : r / 2 ≠ 0 := by omega
            show padTo (m + 1) (pyBinDigits r) = _
            unfold pyBinDigits
            rw [if_neg hr0, if_neg hrdiv, toBits_eq, if_neg hr0]
            unfold padTo
            simp only [List.length_append, List.length_singleton]
            rw [show m + 1 - ((toBits (r / 2)).length + 1)
              = m - (toBits (r / 2)).length by omega, List.append_assoc]
      have hrdiv : r / 2 < 2 ^ m := by omega
      rw [toBits_eq, if_neg hpos, hdiv, hmod, ihm hrdiv hm1, hstep]
      rfl

/-- Round trip of digit strings: converting a non-empty digit list to its
value and back, then re-padding to the original width, is the identity. -/
theorem padTo_pyBinDigits_fromBits :
    ∀ l : List Bool, l ≠ [] → padTo l.length (pyBinDigits (fromBits l)) = l := by
  intro l
  induction l with
  | nil => intro h; exact absurd rfl h
  | cons x t ih =>
    intro _
    by_cases ht : t = []
    · subst ht
      cases x <;> rfl
    · have hlen : (pyBinDigits (fromBits t)).length ≤ t.length := by
        have h1 := congrArg List.length (ih ht)
        unfold padTo at h1
        simp only [List.length_append, List.length_replicate] at h1
        omega
      cases x with
      | false =>
        have hval : fromBits (false :: t) = fromBits t := by
          rw [fromBits_cons]; simp
        rw [hval]
        show padTo (t.length + 1) (pyBinDigits (fromBits t)) = false :: t
        unfold padTo
        rw [show t.length + 1 - (pyBinDigits (fromBits t)).length
          = (t.length - (pyBinDigits (fromBits t)).length) + 1 by omega,
          List.replicate_succ]
        show false :: padTo t.length (pyBinDigits (fromBits t)) = false :: t
        rw [ih ht]
      | true =>
        have hval : fromBits (true :: t) = 2 ^ t.length + fromBits t := by
          rw [fromBits_cons]; simp
        have htlen : 1 ≤ t.length := by
          cases t with
          | nil => exact absurd rfl ht
          | cons y s => simp
        have hne : 2 ^ t.length + fromBits t ≠ 0 := by positivity
        rw [hval]
        show padTo ((true :: t).length)
          (pyBinDigits (2 ^ t.length + fromBits t)) = true :: t
        unfold pyBinDigits
        rw [if_neg hne, toBits_two_pow_add (fromBits_lt t) htlen,
          padTo_eq_self (by simp [padTo_length hlen]), ih ht]

theorem charBit_bitChar (b : Bool) :
    charBit (bitChar b) = some (if b then 1 else 0) := by
  cases b <;> rfl

theorem flipChar_bitChar (b : Bool) : flipChar (bitChar b) = bitChar (!b) := by
  cases b <;> rfl

theorem mapM_charBit_bitChar (l : List Bool) :
    (l.map bitChar).mapM charBit = some (l.map (fun b => if b then 1 else 0)) := by
  induction l with
  | nil => rfl
  | cons b t ih =>
    simp only [List.map_cons, List.mapM_cons, charBit_bitChar, ih]
    rfl

theorem parseBinVal_map_bitChar (l : List Bool) :
    parseBinVal (l.map bitChar) = some (fromBits l) := by
  unfold parseBinVal
  rw [mapM_charBit_bitChar]
  simp only [Option.map_some']
  congr 1
  unfold fromBits
  rw [List.foldl_map]

theorem getD_map_bitChar (l : List Bool) (p : ℕ) :
    (l.map bitChar).getD p '0' = bitChar (l.getD p false) := by
  induction l generalizing p with
  | nil => rfl
  | cons b t ih =>
    cases p with
    | zero => rfl
    | succ q => exact ih q

/-- A digit-character string never carries the `'0b'` prefix: its second
character is a digit, not `'b'`. -/
theorem leading0b_map_bitChar (l : List Bool) :
    leading0b (l.map bitChar) = false := by
  unfold leading0b
  rw [getD_map_bitChar, getD_map_bitChar]
  cases h0 : l.getD 0 false <;> cases h1 : l.getD 1 false <;> rfl

theorem parseBin2_map_bitChar (l : List Bool) (hne : l ≠ []) :
    parseBin2 (l.map bitChar) = some (fromBits l) := by
  unfold parseBin2
  rw [leading0b_map_bitChar, if_neg Bool.false_ne_true,
    if_neg (by simp [hne]), parseBinVal_map_bitChar]

theorem set_map_bitChar (l : List Bool) (p : ℕ) (b : Bool) :
    (l.map bitChar).set p (bitChar b) = (l.set p b).map bitChar := by
  induction l generalizing p with
  | nil => rfl
  | cons x t ih =>
    cases p with
    | zero => rfl
    | succ q => exact congrArg (List.cons (bitChar x)) (ih q)

theorem getD_set_self {α : Type} (l : List α) (p : ℕ) (a d : α)
    (hp : p < l.length) : (l.set p a).getD p d = a := by
  induction l generalizing p with
  | nil => simp at hp
  | cons x t ih =>
    cases p with
    | zero => rfl
    | succ q => exact ih q (by simpa using hp)

theorem set_getD_self {α : Type} (l : List α) (p : ℕ) (d : α) :
    l.set p (l.getD p d) = l := by
  induction l generalizing p with
  | nil => rfl
  | cons x t ih =>
    cases p with
    | zero => rfl
    | succ q => exact congrArg (List.cons x) (ih q)

theorem getD_set_ne {α : Type} (l : List α) {p q : ℕ} (a d : α)
    (h : p ≠ q) : (l.set p a).getD q d = l.getD q d := by
  induction l generalizing p q with
  | nil => rfl
  | cons x t ih =>
    cases p with
    | zero =>
      cases q with
      | zero => exact absurd rfl h
      | succ j => rfl
    | succ i =>
      cases q with
      | zero => rfl
      | succ j => exact ih (fun hc => h (by rw [hc]))

theorem paddedBin_nonneg (v : ℤ) (h : 0 ≤ v) :
    paddedBin v = (padTo 32 (pyBinDigits v.toNat)).map bitChar := by
  unfold paddedBin pyBinString
  rw [if_neg (not_lt.mpr h)]
  unfold padTo
  rw [List.map_append, List.map_replicate, List.length_map]
  rfl

/-- One in-range application of the integer branch, described on the
Bool-level padded digit list. -/
theorem flip_int_of_padded (v : ℤ) (l : List Bool)
    (hpb : paddedBin v = l.map bitChar) (p : ℕ) (hp : p < l.length) :
    simulate_bit_flip_int v p
      = some ((fromBits (l.set p (!(l.getD p false))) : ℕ) : ℤ) := by
  have hne : l.set p (!(l.getD p false)) ≠ [] := by
    apply List.ne_nil_of_length_pos
    rw [List.length_set]
    omega
  unfold simulate_bit_flip_int
  rw [hpb, if_pos (by rw [List.length_map]; exact hp), getD_map_bitChar,
    flipChar_bitChar, set_map_bitChar, parseBin2_map_bitChar _ hne]
  rfl

/-- Re-padding the digits of the value of a digit list recovers the list,
when the list has width exactly 32, or is wider with a leading one. -/
theorem padTo32_of_fromBits (l : List Bool) (hne : l ≠ [])
    (h : l.length = 32 ∨ (32 < l.length ∧ l.getD 0 false = true)) :
    padTo 32 (pyBinDigits (fromBits l)) = l := by
  have hmain := padTo_pyBinDigits_fromBits l hne
  rcases h with h32 | ⟨hgt, hhead⟩
  · rw [← h32]
    exact hmain
  · have hDlen : (pyBinDigits (fromBits l)).length ≤ l.length := by
      have h1 := congrArg List.length hmain
      unfold padTo at h1
      simp only [List.length_append, List.length_replicate] at h1
      omega
    unfold padTo at hmain ⊢
    rcases hk : l.length - (pyBinDigits (fromBits l)).length with _ | k
    · rw [hk] at hmain
      rw [List.replicate_zero, List.nil_append] at hmain
      rw [show 32 - (pyBinDigits (fromBits l)).length = 0 by omega,
        List.replicate_zero, List.nil_append]
      exact hmain
    · rw [hk, List.replicate_succ, List.cons_append] at hmain
      have hfalse : l.getD 0 false = false := by
        rw [← hmain]
        rfl
      rw [hhead] at hfalse
      cases hfalse

/-- In-range round trip of the integer branch for nonnegative values,
provided the first flip cannot shorten the digit string: either the value
fits in 32 bits (the string has the minimum width 32, which padding
restores), or the flipped position is not the leading digit. -/
theorem flip_int_round_trip (v : ℤ) (p : ℕ) (hv : 0 ≤ v)
    (hp : p < (paddedBin v).length) (hside : v < 2 ^ 32 ∨ 1 ≤ p) :
    (simulate_bit_flip_int v p).bind (fun w => simulate_bit_flip_int w p)
      = some v := by
  have hpb : paddedBin v = (padTo 32 (pyBinDigits v.toNat)).map bitChar :=
    paddedBin_nonneg v hv
  have hpbl : p < (padTo 32 (pyBinDigits v.toNat)).length := by
    rw [hpb, List.length_map] at hp
    exact hp
  have h1 := flip_int_of_padded v _ hpb p hpbl
  have hlen' :
      ((padTo 32 (pyBinDigits v.toNat)).set p
        (!((padTo 32 (pyBinDigits v.toNat)).getD p false))).length
      = (padTo 32 (pyBinDigits v.toNat)).length := List.length_set _ _ _
  have hne :
      (padTo 32 (pyBinDigits v.toNat)).set p
        (!((padTo 32 (pyBinDigits v.toNat)).getD p false)) ≠ [] := by
    apply List.ne_nil_of_length_pos
    rw [hlen']
    omega
  have hcase :
      ((padTo 32 (pyBinDigits v.toNat)).set p
        (!((padTo 32 (pyBinDigits v.toNat)).getD p false))).length = 32 ∨
      (32 < ((padTo 32 (pyBinDigits v.toNat)).set p
        (!((padTo 32 (pyBinDigits v.toNat)).getD p false))).length ∧
       ((padTo 32 (pyBinDigits v.toNat)).set p
        (!((padTo 32 (pyBinDigits v.toNat)).getD p false))).getD 0 false
         = true) := by
    by_cases hvlt : v < 2 ^ 32
    · left
      rw [hlen']
      exact padTo_length (pyBinDigits_length_le (by omega))
    · have hp1 : 1 ≤ p := by
        rcases hside with hl | hr
        · exact absurd hl hvlt
        · exact hr
      have hn32 : 2 ^ 32 ≤ v.toNat := by omega
      have hn0 : v.toNat ≠ 0 := by omega
      have hD : pyBinDigits v.toNat = toBits v.toNat := by
        unfold pyBinDigits
        rw [if_neg hn0]
      have hDlen : 32 < (pyBinDigits v.toNat).length := by
        rw [hD]
        exact toBits_length_ge hn32
      have hbleq : padTo 32 (pyBinDigits v.toNat) = pyBinDigits v.toNat := by
        unfold padTo
        rw [show 32 - (pyBinDigits v.toNat).length = 0 by omega,
          List.replicate_zero, List.nil_append]
      right
      constructor
      · rw [hlen', hbleq]
        exact hDlen
      · obtain ⟨t, ht⟩ := toBits_head (show 1 ≤ v.toNat by omega)
        rw [hbleq, hD, ht]
        match p, hp1 with
        | q + 1, _ => rfl
  have h2 : paddedBin ((fromBits ((padTo 32 (pyBinDigits v.toNat)).set p
        (!((padTo 32 (pyBinDigits v.toNat)).getD p false))) : ℕ) : ℤ)
      = ((padTo 32 (pyBinDigits v.toNat)).set p
        (!((padTo 32 (pyBinDigits v.toNat)).getD p false))).map bitChar := by
    rw [paddedBin_nonneg _ (Int.natCast_nonneg _), Int.toNat_natCast,
      padTo32_of_fromBits _ hne hcase]
  have hp2 : p < ((padTo 32 (pyBinDigits v.toNat)).set p
      (!((padTo 32 (pyBinDigits v.toNat)).getD p false))).length := by
    rw [hlen']
    exact hpbl
  have h3 := flip_int_of_padded _ _ h2 p hp2
  rw [h1, Option.some_bind, h3]
  have hgd : ((padTo 32 (pyBinDigits v.toNat)).set p
        (!((padTo 32 (pyBinDigits v.toNat)).getD p false))).getD p false
      = !((padTo 32 (pyBinDigits v.toNat)).getD p false) :=
    getD_set_self _ p _ false hpbl
  rw [hgd, Bool.not_not, List.set_set,
    set_getD_self (padTo 32 (pyBinDigits v.toNat)) p false,
    fromBits_padTo, fromBits_pyBinDigits, Int.toNat_of_nonneg hv]

/-- Claim C6 (amended): the MSB-indexed integer bit flip round-trips —
`simulate_bit_flip(simulate_bit_flip(v, p), p) == v` — for every
nonnegative `v` and in-range `p`, except in the case excluded by the
counterexample: a value of 33 or more binary digits with `p = 0`, where
clearing the leading one shortens the padded string and re-indexes the
second flip; and for every out-of-range `p` the transform returns `v`
unchanged (a no-op, not an error). -/
theorem C6_int_bit_flip_round_trip (v : ℤ) (p : ℕ) :
    (0 ≤ v → p < (paddedBin v).length → (v < 2 ^ 32 ∨ 1 ≤ p) →
      (simulate_bit_flip_int v p).bind (fun w => simulate_bit_flip_int w p)
        = some v) ∧
    ((paddedBin v).length ≤ p → simulate_bit_flip_int v p = some v) := by
  constructor
  · intro hv hp hside
    exact flip_int_round_trip v p hv hp hside
  · intro hp
    unfold simulate_bit_flip_int
    rw [if_neg (by omega)]

/-- Counterexample to claim C6 as stated: `v = 2 ^ 32` has a 33-character
binary string, so position 0 is in range, but flipping it twice yields
`2 ^ 31`, not `v`: the first flip produces 0, whose padded string has only
32 characters, so the second flip addresses a different bit weight. -/
theorem C6_counterexample :
    (0 : ℕ) < (paddedBin ((2 : ℤ) ^ 32)).length ∧
    (simulate_bit_flip_int ((2 : ℤ) ^ 32) 0).bind
      (fun w => simulate_bit_flip_int w 0) = some ((2 : ℤ) ^ 31) ∧
    ((2 : ℤ) ^ 31) ≠ (2 : ℤ) ^ 32 := by
  refine ⟨?_, ?_, by norm_num⟩
  · decide
  · decide

/-- Witness for the amended C6: round trip at `v = 42`, `p = 5`, and the
out-of-range no-op at `v = 42`, `p = 40`. -/
theorem C6_witness :
    (5 : ℕ) < (paddedBin 42).length ∧
    (simulate_bit_flip_int 42 5).bind (fun w => simulate_bit_flip_int w 5)
      = some 42 ∧
    (paddedBin 42).length ≤ 40 ∧
    simulate_bit_flip_int 42 40 = some 42 := by
  refine ⟨by decide, ?_, by decide, ?_⟩
  · exact (C6_int_bit_flip_round_trip 42 5).1 (by decide) (by decide)
      (by norm_num)
  · exact (C6_int_bit_flip_round_trip 42 40).2 (by decide)

theorem getD_replicate_append {α : Type} (k : ℕ) (c d : α) (l : List α) :
    (List.replicate k c ++ l).getD k d = l.getD 0 d := by
  induction k with
  | zero => rfl
  | succ j ih =>
    rw [List.replicate_succ, List.cons_append]
    exact ih

theorem set_replicate_append {α : Type} (k : ℕ) (c a : α) (l : List α) :
    (List.replicate k c ++ l).set k a = List.replicate k c ++ l.set 0 a := by
  induction k with
  | zero => rfl
  | succ j ih =>
    rw [List.replicate_succ, List.cons_append]
    exact congrArg (List.cons c) ih

theorem getD_replicate_lt {α : Type} (k i : ℕ) (h : i < k) (c d : α)
    (l : List α) : (List.replicate k c ++ l).getD i d = c := by
  induction k generalizing i with
  | zero => omega
  | succ j ih =>
    rw [List.replicate_succ, List.cons_append]
    cases i with
    | zero => rfl
    | succ m => exact ih m (by omega)

theorem mapM_charBit_none (l : List Char) (i : ℕ) (hi : i < l.length)
    (hb : l.getD i ' ' = 'b') : l.mapM charBit = none := by
  induction l generalizing i with
  | nil => simp at hi
  | cons x t ih =>
    cases i with
    | zero =>
      have hx : x = 'b' := hb
      subst hx
      rw [List.mapM_cons, show charBit 'b' = none from rfl]
      rfl
    | succ j =>
      have hj : j < t.length := by simpa using hi
      have hbt : t.getD j ' ' = 'b' := hb
      rw [List.mapM_cons, ih j hj hbt]
      cases charBit x <;> rfl

theorem parseBin2_none_of_b (l : List Char) (i : ℕ) (hi : i < l.length)
    (hb : l.getD i ' ' = 'b') (hlead : leading0b l = false) :
    parseBin2 l = none := by
  unfold parseBin2
  rw [hlead, if_neg Bool.false_ne_true,
    if_neg (List.ne_nil_of_length_pos (by omega))]
  unfold parseBinVal
  rw [mapM_charBit_none l i hi hb]
  rfl

/-- Counterexample to claim C10 as stated: for `v = -5` the string
`bin(-5)[2:]` is `'b101'`, padded to 28 zeros followed by `'b101'`; at the
in-range position 28 the flip hits the `'b'` itself, replacing it by `'0'`,
after which `int(s, 2)` succeeds and returns 5 — no exception is raised. -/
theorem C10_counterexample :
    (28 : ℕ) < (paddedBin (-5)).length ∧
    simulate_bit_flip_int (-5) 28 = some 5 := by
  constructor <;> decide

/-- Claim C10 (amended): for every negative `v` and in-range position `p`,
the integer branch raises `ValueError` (the `'b'` left by the slice makes
`int(s, 2)` fail) — with two exceptions.  At the position of the `'b'`
character itself, `32 - len(bin(v)[2:])`, the flip replaces `'b'` by `'0'`
and the call returns the absolute value `-v`.  And when `-v` has exactly
30 binary digits (`len(bin(v)[2:]) == 31`), the padding is a single zero,
so the string is `'0b'` followed by the digits — a prefix `int(s, 2)`
accepts — and flipping any digit position `p ≥ 2` returns the value of
the digit string with digit `p - 2` flipped, again without raising. -/
theorem C10_negative_flip (v : ℤ) (p : ℕ) (hv : v < 0)
    (hp : p < (paddedBin v).length) :
    (p = 32 - (pyBinString v).length → simulate_bit_flip_int v p = some (-v)) ∧
    (p ≠ 32 - (pyBinString v).length →
      (((pyBinString v).length ≠ 31 ∨ p < 2) →
        simulate_bit_flip_int v p = none) ∧
      ((pyBinString v).length = 31 → 2 ≤ p →
        simulate_bit_flip_int v p
          = some ((fromBits ((pyBinDigits (-v).toNat).set (p - 2)
              (!((pyBinDigits (-v).toNat).getD (p - 2) false))) : ℕ) : ℤ))) := by
  have hs : pyBinString v = 'b' :: (pyBinDigits (-v).toNat).map bitChar := by
    unfold pyBinString
    rw [if_pos hv]
  have hslen : 0 < (pyBinString v).length := by
    rw [hs]
    simp
  have hklt : 32 - (pyBinString v).length < (paddedBin v).length := by
    unfold paddedBin
    rw [List.length_append, List.length_replicate]
    omega
  have hplen32 : 32 ≤ (paddedBin v).length := by
    unfold paddedBin
    rw [List.length_append, List.length_replicate]
    omega
  constructor
  · intro heq
    subst heq
    unfold simulate_bit_flip_int
    rw [if_pos hp]
    have hgd : (paddedBin v).getD (32 - (pyBinString v).length) '0' = 'b' := by
      unfold paddedBin
      rw [hs, getD_replicate_append]
      rfl
    have hflip : flipChar 'b' = '0' := rfl
    rw [hgd, hflip]
    have hset : (paddedBin v).set (32 - (pyBinString v).length) '0'
        = List.replicate (32 - (pyBinString v).length) '0'
          ++ '0' :: (pyBinDigits (-v).toNat).map bitChar := by
      unfold paddedBin
      rw [hs, set_replicate_append]
      rfl
    have hmap : List.replicate (32 - (pyBinString v).length) '0'
          ++ '0' :: (pyBinDigits (-v).toNat).map bitChar
        = (List.replicate (32 - (pyBinString v).length) false
          ++ false :: pyBinDigits (-v).toNat).map bitChar := by
      rw [List.map_append, List.map_replicate, List.map_cons]
      rfl
    have hval : fromBits (List.replicate (32 - (pyBinString v).length) false
          ++ false :: pyBinDigits (-v).toNat) = (-v).toNat := by
      rw [fromBits_append, fromBits_replicate_false, fromBits_cons,
        fromBits_pyBinDigits]
      simp
    have hne : List.replicate (32 - (pyBinString v).length) false
        ++ false :: pyBinDigits (-v).toNat ≠ [] := by
      apply List.ne_nil_of_length_pos
      simp only [List.length_append, List.length_replicate, List.length_cons]
      omega
    rw [hset, hmap, parseBin2_map_bitChar _ hne, hval]
    show some (((-v).toNat : ℕ) : ℤ) = some (-v)
    rw [Int.toNat_of_nonneg (by omega)]
  · intro hneq
    have hbsp : (paddedBin v).getD (32 - (pyBinString v).length) ' ' = 'b' := by
      unfold paddedBin
      rw [hs, getD_replicate_append]
      rfl
    have hb0 : (paddedBin v).getD (32 - (pyBinString v).length) '0' = 'b' := by
      unfold paddedBin
      rw [hs, getD_replicate_append]
      rfl
    constructor
    · intro hcase
      unfold simulate_bit_flip_int
      rw [if_pos hp]
      have hbmem : ((paddedBin v).set p
          (flipChar ((paddedBin v).getD p '0'))).getD
            (32 - (pyBinString v).length) ' ' = 'b' := by
        rw [getD_set_ne _ _ _ hneq]
        exact hbsp
      have hblt : 32 - (pyBinString v).length
          < ((paddedBin v).set p
              (flipChar ((paddedBin v).getD p '0'))).length := by
        rw [List.length_set]
        exact hklt
      have hlead : leading0b ((paddedBin v).set p
          (flipChar ((paddedBin v).getD p '0'))) = false := by
        by_cases hk0 : 32 - (pyBinString v).length = 0
        · have h0 := hb0
          rw [hk0] at h0
          unfold leading0b
          rw [getD_set_ne _ _ _ (by omega : p ≠ 0), h0]
          rfl
        · by_cases hk1 : 32 - (pyBinString v).length = 1
          · have hs31 : (pyBinString v).length = 31 := by omega
            have hplt : p < 2 := by
              rcases hcase with hc | hc
              · exact absurd hs31 hc
              · exact hc
            have hp0 : p = 0 := by omega
            subst hp0
            have hpad0 : (paddedBin v).getD 0 '0' = '0' := by
              unfold paddedBin
              exact getD_replicate_lt _ 0 (by omega) '0' '0' _
            unfold leading0b
            rw [getD_set_self _ 0 _ '0' (by omega), hpad0]
            rfl
          · have h1ne : ((paddedBin v).set p
                (flipChar ((paddedBin v).getD p '0'))).getD 1 '0' ≠ 'b' := by
              by_cases hp1 : p = 1
              · subst hp1
                rw [getD_set_self _ 1 _ '0' (by omega)]
                unfold flipChar
                split_ifs <;> decide
              · rw [getD_set_ne _ _ _ hp1]
                have hpad1 : (paddedBin v).getD 1 '0' = '0' := by
                  unfold paddedBin
                  exact getD_replicate_lt _ 1 (by omega) '0' '0' _
                rw [hpad1]
                decide
            unfold leading0b
            rw [beq_eq_false_iff_ne.mpr h1ne]
            exact Bool.and_false _
      rw [parseBin2_none_of_b _ _ hblt hbmem hlead]
      rfl
    · intro hs31 hp2
      have hk1 : 32 - (pyBinString v).length = 1 := by omega
      have hpad : paddedBin v
          = '0' :: 'b' :: (pyBinDigits (-v).toNat).map bitChar := by
        unfold paddedBin
        rw [hk1, hs]
        rfl
      obtain ⟨q, rfl⟩ : ∃ q, p = q + 2 := ⟨p - 2, by omega⟩
      unfold simulate_bit_flip_int
      rw [if_pos hp, hpad]
      have hred : (('0' :: 'b' :: (pyBinDigits (-v).toNat).map bitChar).set
            (q + 2) (flipChar (('0' :: 'b' ::
              (pyBinDigits (-v).toNat).map bitChar).getD (q + 2) '0')))
          = '0' :: 'b' :: (((pyBinDigits (-v).toNat).map bitChar).set q
              (flipChar (((pyBinDigits (-v).toNat).map bitChar).getD q '0'))) :=
        rfl
      rw [hred, getD_map_bitChar, flipChar_bitChar, set_map_bitChar]
      have hlead : leading0b ('0' :: 'b' :: ((pyBinDigits (-v).toNat).set q
          (!((pyBinDigits (-v).toNat).getD q false))).map bitChar) = true := rfl
      have hlen2 : ('0' :: 'b' :: ((pyBinDigits (-v).toNat).set q
          (!((pyBinDigits (-v).toNat).getD q false))).map bitChar).length
          ≠ 2 := by
        have hD30 : (pyBinDigits (-v).toNat).length = 30 := by
          have hl := congrArg List.length hs
          simp only [List.length_cons, List.length_map] at hl
          omega
        simp only [List.length_cons, List.length_map, List.length_set, hD30]
        omega
      have hdrop : ('0' :: 'b' :: ((pyBinDigits (-v).toNat).set q
          (!((pyBinDigits (-v).toNat).getD q false))).map bitChar).drop 2
          = ((pyBinDigits (-v).toNat).set q
              (!((pyBinDigits (-v).toNat).getD q false))).map bitChar := rfl
      unfold parseBin2
      rw [hlead, if_pos rfl, if_neg hlen2, hdrop, parseBinVal_map_bitChar]
      rfl

/-- Witness for the amended C10: at `v = -5` position 0 (a padding zero)
raises while the `'b'` position 28 returns 5; at `v = -2^29` (30 binary
digits, so the padded string is `'0b' + digits`) the digit position 31
returns `2^29 + 1` without raising. -/
theorem C10_witness :
    ((-5 : ℤ) < 0) ∧
    (0 : ℕ) < (paddedBin (-5)).length ∧
    (0 : ℕ) ≠ 32 - (pyBinString (-5)).length ∧
    simulate_bit_flip_int (-5) 0 = none ∧
    (28 : ℕ) = 32 - (pyBinString (-5)).length ∧
    simulate_bit_flip_int (-5) 28 = some (-(-5)) ∧
    (pyBinString (-(2 ^ 29) : ℤ)).length = 31 ∧
    simulate_bit_flip_int (-(2 ^ 29)) 31 = some 536870913 := by
  refine ⟨by decide, by decide, by decide, ?_, by decide, ?_, by decide, ?_⟩
  · exact ((C10_negative_flip (-5) 0 (by decide) (by decide)).2
      (by decide)).1 (by decide)
  · exact (C10_negative_flip (-5) 28 (by decide) (by decide)).1 (by decide)
  · have h := ((C10_negative_flip (-(2 ^ 29)) 31 (by decide) (by decide)).2
      (by decide)).2 (by decide) (by decide)
    exact h.trans (by decide)
